import Mathlib

/-!
Verification of the byteview repository's log-header parsing example
(src/examples/log/log_byteview.rs, src/examples/log/log_zerocopy.rs) and
entry-header test (src/tests/entry.rs), as a shallow embedding in Lean.

Bytes are modelled as natural numbers (values below 256); Rust byte slices
and arrays as lists of naturals; Rust String values as their UTF-8 byte
lists.  Fallible Rust operations return Option or Except; a Rust panic is
modelled as the error case of an Except Unit.
-/

/-! ## Byte codec helpers -/

/-- Big-endian decoding of a byte list, as done by u32::from_be_bytes on a
4-byte array (most significant byte first). -/
def be32 (bs : List Nat) : Nat := bs.foldl (fun a b => a * 256 + b) 0

/-- Model of Rust Iterator::position: index of the first element satisfying
the predicate. -/
def position (p : Nat → Bool) : List Nat → Option Nat
  | [] => none
  | b :: t => if p b then some 0 else (position p t).map (· + 1)

/-! ## UTF-8 model

Model of Rust std's UTF-8 machinery (String::from_utf8 and
String::from_utf8_lossy): a step function giving the byte length of a
valid scalar-value encoding at the head of a list, a validator, and a
lossy decoder that substitutes the replacement character (encoded
EF BF BD) for each maximal invalid subsequence. -/

/-- Is the byte a UTF-8 continuation byte (0x80..=0xBF)? -/
def isCont (b : Nat) : Bool := 0x80 ≤ b && b ≤ 0xBF

/-- Allowed range of the second byte of a multi-byte UTF-8 sequence, given
the lead byte: excludes overlong encodings, surrogates and values above
U+10FFFF, as in Rust core's UTF-8 validation. -/
def utf8SecondOk (b0 b1 : Nat) : Bool :=
  if b0 == 0xE0 then 0xA0 ≤ b1 && b1 ≤ 0xBF
  else if b0 == 0xED then 0x80 ≤ b1 && b1 ≤ 0x9F
  else if b0 == 0xF0 then 0x90 ≤ b1 && b1 ≤ 0xBF
  else if b0 == 0xF4 then 0x80 ≤ b1 && b1 ≤ 0x8F
  else isCont b1

/-- Byte length (1..4) of the valid UTF-8 scalar encoding at the head of
the list, or none when the head is not a valid encoding. -/
def utf8Len : List Nat → Option Nat
  | [] => none
  | b0 :: rest =>
    if b0 < 0x80 then some 1
    else if 0xC2 ≤ b0 && b0 ≤ 0xDF then
      match rest with
      | b1 :: _ => if isCont b1 then some 2 else none
      | [] => none
    else if 0xE0 ≤ b0 && b0 ≤ 0xEF then
      match rest with
      | b1 :: rest2 =>
        if utf8SecondOk b0 b1 then
          match rest2 with
          | b2 :: _ => if isCont b2 then some 3 else none
          | [] => none
        else none
      | [] => none
    else if 0xF0 ≤ b0 && b0 ≤ 0xF4 then
      match rest with
      | b1 :: rest2 =>
        if utf8SecondOk b0 b1 then
          match rest2 with
          | b2 :: rest3 =>
            if isCont b2 then
              match rest3 with
              | b3 :: _ => if isCont b3 then some 4 else none
              | [] => none
            else none
          | [] => none
        else none
      | [] => none
    else none

/-- Length of the maximal subpart consumed when the head of the list is not
a valid scalar encoding, as in Rust's Utf8Error::error_len (an incomplete
sequence at the end of input is consumed whole). -/
def utf8ErrLen : List Nat → Nat
  | [] => 1
  | b0 :: rest =>
    if 0xE0 ≤ b0 && b0 ≤ 0xEF then
      match rest with
      | b1 :: _ => if utf8SecondOk b0 b1 then 2 else 1
      | [] => 1
    else if 0xF0 ≤ b0 && b0 ≤ 0xF4 then
      match rest with
      | b1 :: rest2 =>
        if utf8SecondOk b0 b1 then
          match rest2 with
          | b2 :: _ => if isCont b2 then 3 else 2
          | [] => 2
        else 1
      | [] => 1
    else 1

/-- Fuel-driven UTF-8 validator; the fuel only needs to be at least the
length of the list. -/
def isValidUtf8Aux : Nat → List Nat → Bool
  | _, [] => true
  | 0, _ :: _ => false
  | fuel + 1, b0 :: rest =>
    match utf8Len (b0 :: rest) with
    | some k => isValidUtf8Aux fuel ((b0 :: rest).drop k)
    | none => false

/-- Model of Rust str::from_utf8 validity: the byte list is a concatenation
of valid UTF-8 scalar encodings. -/
def isValidUtf8 (l : List Nat) : Bool := isValidUtf8Aux l.length l

/-- Fuel-driven lossy UTF-8 decoder; the fuel only needs to be at least
the length of the list. -/
def utf8LossyAux : Nat → List Nat → List Nat
  | _, [] => []
  | 0, _ :: _ => []
  | fuel + 1, b0 :: rest =>
    match utf8Len (b0 :: rest) with
    | some k => (b0 :: rest).take k ++ utf8LossyAux fuel ((b0 :: rest).drop k)
    | none =>
      0xEF :: 0xBF :: 0xBD :: utf8LossyAux fuel ((b0 :: rest).drop (utf8ErrLen (b0 :: rest)))

/-- Model of Rust String::from_utf8_lossy, as the byte list of the
resulting string: valid scalar encodings are copied, each maximal invalid
subsequence becomes the replacement character U+FFFD (bytes EF BF BD). -/
def utf8LossyBytes (l : List Nat) : List Nat := utf8LossyAux l.length l

/-- Model of Rust String::from_utf8 (result as the string's byte list,
errors collapsed to none as by .ok()). -/
def stringFromUtf8 (l : List Nat) : Option (List Nat) :=
  if isValidUtf8 l then some l else none

/-! ## Chrono timestamp model

The chrono crate is an external collaborator; a DateTime is modelled by
its absolute instant as whole seconds since the Unix epoch (the code only
ever builds timestamps with zero nanoseconds).  A Local DateTime is the
same instant under a different display projection. -/

/-- Smallest timestamp representable by chrono's calendar types
(NaiveDateTime::MIN, year -262144). -/
def chronoMinTimestamp : Int := -8334632937600

/-- Largest timestamp representable by chrono's calendar types
(NaiveDateTime::MAX, year 262143). -/
def chronoMaxTimestamp : Int := 8210298412799

/-- Model of chrono DateTime::<Utc>::from_timestamp with zero nanoseconds:
some instant exactly when the value is inside the representable calendar
range. -/
def chronoFromTimestamp (secs : Int) : Option Int :=
  if chronoMinTimestamp ≤ secs ∧ secs ≤ chronoMaxTimestamp then some secs else none

/-- Model of chrono's with_timezone(&Local) projection: the absolute
instant is unchanged, only its display representation differs. -/
def withTimezoneLocal (t : Int) : Int := t

/-! ## src/tests/entry.rs -/

namespace Entry

/-- The Kind enum of src/tests/entry.rs. -/
inductive Kind
  | Foo
  | Bar
  | Baz
deriving DecidableEq

/-- Kind::from_byte of src/tests/entry.rs. -/
def Kind.from_byte (byte : Nat) : Option Kind :=
  match byte with
  | 0 => some .Foo
  | 1 => some .Bar
  | 2 => some .Baz
  | _ => none

/-- The zero-copy entry-header view: borrows the 22-byte source array. -/
structure EntryHeaderRef where
  bytes : List Nat
deriving DecidableEq

/-- Modelled from the spec: byteview_ref! generates from_array, wrapping a
reference to an exactly sized (22-byte) array into the view. -/
def EntryHeaderRef.from_array (a : List Nat) : EntryHeaderRef := ⟨a⟩

/-- Modelled from the spec: generated accessor for the u32be field at
offset 0 (big-endian, most significant byte first). -/
def EntryHeaderRef.index (h : EntryHeaderRef) : Nat := be32 (h.bytes.take 4)

/-- Modelled from the spec: generated accessor for the u8 field at
offset 4. -/
def EntryHeaderRef._kind (h : EntryHeaderRef) : Nat := h.bytes.getD 4 0

/-- Modelled from the spec: generated accessor for the 16-byte array field
at offset 6 (offset 5 is the anonymous padding byte). -/
def EntryHeaderRef._name (h : EntryHeaderRef) : List Nat := (h.bytes.drop 6).take 16

/-- EntryHeaderRef::kind of src/tests/entry.rs. -/
def EntryHeaderRef.kind (h : EntryHeaderRef) : Option Kind :=
  match h._kind with
  | 0 => some .Foo
  | 1 => some .Bar
  | 2 => some .Baz
  | _ => none

/-- EntryHeaderRef::name of src/tests/entry.rs: prefix of the name array
up to the first zero byte, or the whole array. -/
def EntryHeaderRef.name (h : EntryHeaderRef) : List Nat :=
  let name := h._name
  match position (fun b => b == 0) name with
  | some i => name.take i
  | none => name

/-- The owned entry-header view: owns a copy of the 22-byte array. -/
structure EntryHeaderOwned where
  bytes : List Nat
deriving DecidableEq

/-- Modelled from the spec: byteview_owned! generates from_array, taking
possession of (a copy of) the exactly sized 22-byte array. -/
def EntryHeaderOwned.from_array (a : List Nat) : EntryHeaderOwned := ⟨a⟩

/-- Modelled from the spec: generated accessor for the u32be field at
offset 0. -/
def EntryHeaderOwned.index (h : EntryHeaderOwned) : Nat := be32 (h.bytes.take 4)

/-- Modelled from the spec: generated accessor for the u8 field at
offset 4. -/
def EntryHeaderOwned._kind (h : EntryHeaderOwned) : Nat := h.bytes.getD 4 0

/-- Modelled from the spec: generated accessor for the 16-byte array field
at offset 6. -/
def EntryHeaderOwned._name (h : EntryHeaderOwned) : List Nat := (h.bytes.drop 6).take 16

/-- EntryHeaderOwned::kind of src/tests/entry.rs. -/
def EntryHeaderOwned.kind (h : EntryHeaderOwned) : Option Kind :=
  match h._kind with
  | 0 => some .Foo
  | 1 => some .Bar
  | 2 => some .Baz
  | _ => none

/-- EntryHeaderOwned::name of src/tests/entry.rs. -/
def EntryHeaderOwned.name (h : EntryHeaderOwned) : List Nat :=
  let name := h._name
  match position (fun b => b == 0) name with
  | some i => name.take i
  | none => name

end Entry

/-! ## src/examples/log/log_byteview.rs -/

namespace LogBV

/-- Prefix of a byte slice up to (excluding) the first zero byte, or the
whole slice when it has no zero byte (null_terminated_bytes of
log_byteview.rs). -/
def null_terminated_bytes (bytes : List Nat) : List Nat :=
  match position (fun b => b == 0) bytes with
  | some index => bytes.take index
  | none => bytes

/-- null_terminated_string of log_byteview.rs: strict UTF-8 decoding of the
null-terminated prefix, none when the prefix is not valid UTF-8. -/
def null_terminated_string (bytes : List Nat) : Option (List Nat) :=
  stringFromUtf8 (null_terminated_bytes bytes)

/-- null_terminated_string_lossy of log_byteview.rs: lossy UTF-8 decoding
of the null-terminated prefix; never fails. -/
def null_terminated_string_lossy (bytes : List Nat) : List Nat :=
  utf8LossyBytes (null_terminated_bytes bytes)

/-- from_unix_epoch of log_byteview.rs: zero is the absence sentinel, any
other value is seconds since the Unix epoch handed to chrono. -/
def from_unix_epoch (num_seconds : Nat) : Option Int :=
  if num_seconds == 0 then none else chronoFromTimestamp num_seconds

/-- The LogType enum of log_byteview.rs. -/
inductive LogType
  | System
  | Comm
  | Debug
deriving DecidableEq

/-- The DataKind enum of log_byteview.rs. -/
inductive DataKind
  | SignedInteger
  | UnsignedInteger
  | Float
  | String
  | Bool
deriving DecidableEq

/-- The DataInfo newtype of log_byteview.rs, wrapping the raw data_info
byte. -/
structure DataInfo where
  raw : Nat
deriving DecidableEq

/-- DataInfo::kind of log_byteview.rs: the high nibble selects a DataKind;
unmapped nibbles fail carrying the offending nibble value. -/
def DataInfo.kind (d : DataInfo) : Except Nat DataKind :=
  match d.raw >>> 4 with
  | 0 => .ok .SignedInteger
  | 1 => .ok .UnsignedInteger
  | 2 => .ok .Float
  | 3 => .ok .String
  | 4 => .ok .Bool
  | k => .error k

/-- DataInfo::length of log_byteview.rs: the low nibble, used as-is. -/
def DataInfo.length (d : DataInfo) : Nat := d.raw &&& 0x0F

/-- The zero-copy header-start view generated by byteview_ref!: borrows
the 42 bytes of the header record. -/
structure HeaderStart where
  bytes : List Nat
deriving DecidableEq

/-- Modelled from the spec: generated split_slice (parse_prefix) fails
with none when fewer than the 42-byte record width is available, else
yields the view over the first 42 bytes and the remaining suffix. -/
def HeaderStart.split_slice (bytes : List Nat) : Option (HeaderStart × List Nat) :=
  if bytes.length < 42 then none else some (⟨bytes.take 42⟩, bytes.drop 42)

/-- Modelled from the spec: generated accessor for the 32-byte array field
at offset 0. -/
def HeaderStart._file_name (h : HeaderStart) : List Nat := h.bytes.take 32

/-- Modelled from the spec: generated accessor for the u32be field at
offset 32. -/
def HeaderStart._earliest_date_epoch (h : HeaderStart) : Nat :=
  be32 ((h.bytes.drop 32).take 4)

/-- Modelled from the spec: generated accessor for the u32be field at
offset 36. -/
def HeaderStart._latest_date_epoch (h : HeaderStart) : Nat :=
  be32 ((h.bytes.drop 36).take 4)

/-- Modelled from the spec: generated accessor for the u8 field at
offset 40. -/
def HeaderStart._log_type (h : HeaderStart) : Nat := h.bytes.getD 40 0

/-- Modelled from the spec: generated accessor for the u8 field at
offset 41. -/
def HeaderStart.num_fields (h : HeaderStart) : Nat := h.bytes.getD 41 0

/-- HeaderStart::file_name of log_byteview.rs. -/
def HeaderStart.file_name (h : HeaderStart) : Option (List Nat) :=
  null_terminated_string h._file_name

/-- HeaderStart::file_name_lossy of log_byteview.rs. -/
def HeaderStart.file_name_lossy (h : HeaderStart) : List Nat :=
  null_terminated_string_lossy h._file_name

/-- HeaderStart::earliest_date_utc of log_byteview.rs. -/
def HeaderStart.earliest_date_utc (h : HeaderStart) : Option Int :=
  from_unix_epoch h._earliest_date_epoch

/-- HeaderStart::earliest_date_local of log_byteview.rs. -/
def HeaderStart.earliest_date_local (h : HeaderStart) : Option Int :=
  h.earliest_date_utc.map withTimezoneLocal

/-- HeaderStart::latest_date_utc of log_byteview.rs. -/
def HeaderStart.latest_date_utc (h : HeaderStart) : Option Int :=
  from_unix_epoch h._latest_date_epoch

/-- HeaderStart::latest_date_local of log_byteview.rs. -/
def HeaderStart.latest_date_local (h : HeaderStart) : Option Int :=
  h.latest_date_utc.map withTimezoneLocal

/-- HeaderStart::log_type of log_byteview.rs: maps bytes 0, 1, 2 to the
enum, any other byte fails carrying the raw byte. -/
def HeaderStart.log_type (h : HeaderStart) : Except Nat LogType :=
  match h._log_type with
  | 0 => .ok .System
  | 1 => .ok .Comm
  | 2 => .ok .Debug
  | byte => .error byte

/-- The zero-copy field-definition view generated by byteview_ref!:
borrows the 34 bytes of one field-definition record. -/
structure FieldDefinition where
  bytes : List Nat
deriving DecidableEq

/-- Modelled from the spec: generated split_slice fails with none when
fewer than the 34-byte record width is available. -/
def FieldDefinition.split_slice (bytes : List Nat) : Option (FieldDefinition × List Nat) :=
  if bytes.length < 34 then none else some (⟨bytes.take 34⟩, bytes.drop 34)

/-- Modelled from the spec: generated accessor for the 32-byte array field
at offset 0. -/
def FieldDefinition._name (f : FieldDefinition) : List Nat := f.bytes.take 32

/-- Modelled from the spec: generated accessor for the u8 field at
offset 32. -/
def FieldDefinition._data_info (f : FieldDefinition) : Nat := f.bytes.getD 32 0

/-- Modelled from the spec: generated accessor for the u8 field at
offset 33. -/
def FieldDefinition.index (f : FieldDefinition) : Nat := f.bytes.getD 33 0

/-- FieldDefinition::name of log_byteview.rs. -/
def FieldDefinition.name (f : FieldDefinition) : Option (List Nat) :=
  null_terminated_string f._name

/-- FieldDefinition::name_lossy of log_byteview.rs. -/
def FieldDefinition.name_lossy (f : FieldDefinition) : List Nat :=
  null_terminated_string_lossy f._name

/-- FieldDefinition::data_info of log_byteview.rs. -/
def FieldDefinition.data_info (f : FieldDefinition) : DataInfo := ⟨f._data_info⟩

/-- The composite Header of log_byteview.rs. -/
structure Header where
  start : HeaderStart
  fields : List FieldDefinition
deriving DecidableEq

/-- The repeated-record loop inside Header::split_slice: parses the given
number of field-definition records, none as soon as one parse fails. -/
def fieldsLoop : Nat → List Nat → Option (List FieldDefinition × List Nat)
  | 0, bytes => some ([], bytes)
  | n + 1, bytes =>
    match FieldDefinition.split_slice bytes with
    | none => none
    | some (fd, rest) =>
      match fieldsLoop n rest with
      | none => none
      | some (fds, rest2) => some (fd :: fds, rest2)

/-- Header::split_slice of log_byteview.rs.  The Rust code unwraps the
result of each inner split_slice, so a truncated buffer makes it panic;
a panic is the error case of the Except.  When it returns, the value is
always some. -/
def Header.split_slice (bytes : List Nat) : Except Unit (Option (Header × List Nat)) :=
  match HeaderStart.split_slice bytes with
  | none => .error ()
  | some (start, rest) =>
    match fieldsLoop start.num_fields rest with
    | none => .error ()
    | some (fields, rest2) => .ok (some (⟨start, fields⟩, rest2))

end LogBV

/-! ## src/examples/log/log_zerocopy.rs

The zerocopy crate's try_ref_from_prefix either fails with a size error
(buffer shorter than the record width, carrying the source slice), fails
with a validity error (a byte pattern invalid for the target type,
carrying the source slice), or yields the typed view of the prefix plus
the remaining suffix.  Field and method names follow the Rust code; the
accessor methods that share a name with a struct field carry an _opt
suffix because Lean cannot overload them. -/

namespace LogZC

/-- null_terminated_bytes of log_zerocopy.rs (same code as the byteview
variant). -/
def null_terminated_bytes (bytes : List Nat) : List Nat :=
  match position (fun b => b == 0) bytes with
  | some index => bytes.take index
  | none => bytes

/-- null_terminated_string of log_zerocopy.rs. -/
def null_terminated_string (bytes : List Nat) : Option (List Nat) :=
  stringFromUtf8 (null_terminated_bytes bytes)

/-- null_terminated_string_lossy of log_zerocopy.rs. -/
def null_terminated_string_lossy (bytes : List Nat) : List Nat :=
  utf8LossyBytes (null_terminated_bytes bytes)

/-- The LogType enum of log_zerocopy.rs (repr(u8), discriminants 0, 1, 2;
any other byte is an invalid bit pattern for zerocopy). -/
inductive LogType
  | System
  | Comm
  | Debug
deriving DecidableEq

/-- Decoding of the LogType byte per its repr(u8) discriminants. -/
def LogType.try_from_byte (b : Nat) : Option LogType :=
  match b with
  | 0 => some .System
  | 1 => some .Comm
  | 2 => some .Debug
  | _ => none

/-- A zerocopy TryCastError: a size error or a validity error, each
carrying the source slice it was applied to. -/
inductive CastErr
  | size (src : List Nat)
  | validity (src : List Nat)
deriving DecidableEq

/-- The Timestamp newtype of log_zerocopy.rs, wrapping a big-endian U32;
modelled by the decoded u32 value. -/
structure Timestamp where
  raw : Nat
deriving DecidableEq

/-- Timestamp::get_utc of log_zerocopy.rs: zero is the absence sentinel,
any other value is seconds since the Unix epoch handed to chrono. -/
def Timestamp.get_utc (t : Timestamp) : Option Int :=
  if t.raw == 0 then none else chronoFromTimestamp t.raw

/-- Timestamp::get_local of log_zerocopy.rs. -/
def Timestamp.get_local (t : Timestamp) : Option Int :=
  t.get_utc.map withTimezoneLocal

/-- The DataKind enum of log_zerocopy.rs. -/
inductive DataKind
  | SignedInteger
  | UnsignedInteger
  | Float
  | String
  | Bool
deriving DecidableEq

/-- The DataInfo newtype of log_zerocopy.rs. -/
structure DataInfo where
  raw : Nat
deriving DecidableEq

/-- DataInfo::kind of log_zerocopy.rs. -/
def DataInfo.kind (d : DataInfo) : Except Nat DataKind :=
  match d.raw >>> 4 with
  | 0 => .ok .SignedInteger
  | 1 => .ok .UnsignedInteger
  | 2 => .ok .Float
  | 3 => .ok .String
  | 4 => .ok .Bool
  | k => .error k

/-- DataInfo::length of log_zerocopy.rs. -/
def DataInfo.length (d : DataInfo) : Nat := d.raw &&& 0x0F

/-- The HeaderStart struct of log_zerocopy.rs, as its decoded fields. -/
structure HeaderStart where
  file_name : List Nat
  earliest_date_epoch : Timestamp
  latest_date_epoch : Timestamp
  log_type : LogType
  num_fields : Nat
deriving DecidableEq

/-- HeaderStart::try_ref_from_prefix derived by zerocopy (TryFromBytes):
fails with a size error below the 42-byte width, with a validity error
when the LogType byte at offset 40 is not 0, 1 or 2, and otherwise yields
the decoded view of the first 42 bytes plus the remaining suffix. -/
def HeaderStart.try_ref_split (bytes : List Nat) : Except CastErr (HeaderStart × List Nat) :=
  if bytes.length < 42 then .error (.size bytes)
  else
    match LogType.try_from_byte (bytes.getD 40 0) with
    | none => .error (.validity bytes)
    | some lt =>
      .ok (⟨bytes.take 32, ⟨be32 ((bytes.drop 32).take 4)⟩, ⟨be32 ((bytes.drop 36).take 4)⟩,
            lt, bytes.getD 41 0⟩, bytes.drop 42)

/-- HeaderStart::file_name of log_zerocopy.rs (the accessor method). -/
def HeaderStart.file_name_opt (h : HeaderStart) : Option (List Nat) :=
  null_terminated_string h.file_name

/-- HeaderStart::file_name_lossy of log_zerocopy.rs. -/
def HeaderStart.file_name_lossy (h : HeaderStart) : List Nat :=
  null_terminated_string_lossy h.file_name

/-- The FieldDefinition struct of log_zerocopy.rs, as its decoded
fields. -/
structure FieldDefinition where
  name : List Nat
  data_info : DataInfo
  index : Nat
deriving DecidableEq

/-- FieldDefinition::try_ref_from_prefix derived by zerocopy: every byte
pattern is valid for this struct, so the only failure is a size error
below the 34-byte width. -/
def FieldDefinition.try_ref_split (bytes : List Nat) : Except CastErr (FieldDefinition × List Nat) :=
  if bytes.length < 34 then .error (.size bytes)
  else .ok (⟨bytes.take 32, ⟨bytes.getD 32 0⟩, bytes.getD 33 0⟩, bytes.drop 34)

/-- FieldDefinition::name of log_zerocopy.rs (the accessor method). -/
def FieldDefinition.name_opt (f : FieldDefinition) : Option (List Nat) :=
  null_terminated_string f.name

/-- FieldDefinition::name_lossy of log_zerocopy.rs. -/
def FieldDefinition.name_lossy (f : FieldDefinition) : List Nat :=
  null_terminated_string_lossy f.name

/-- HeaderStart::fields_from_prefix of log_zerocopy.rs: parses
num_fields field-definition records in sequence, propagating the first
TryCastError unchanged (no partial list, no iteration annotation). -/
def fields_split : Nat → List Nat → Except CastErr (List FieldDefinition × List Nat)
  | 0, bytes => .ok ([], bytes)
  | n + 1, bytes =>
    match FieldDefinition.try_ref_split bytes with
    | .error e => .error e
    | .ok (f, rest) =>
      match fields_split n rest with
      | .error e => .error e
      | .ok (fs, rest2) => .ok (f :: fs, rest2)

/-- The composite Header of log_zerocopy.rs. -/
structure Header where
  start : HeaderStart
  fields : List FieldDefinition
deriving DecidableEq

/-- Header::try_ref_from_prefix of log_zerocopy.rs: parses the header
start, then num_fields field definitions, propagating any error. -/
def Header.try_ref_split (bytes : List Nat) : Except CastErr (Header × List Nat) :=
  match HeaderStart.try_ref_split bytes with
  | .error e => .error e
  | .ok (start, rest) =>
    match fields_split start.num_fields rest with
    | .error e => .error e
    | .ok (fields, rest2) => .ok (⟨start, fields⟩, rest2)

end LogZC

/-! ## UTF-8 lemmas -/

theorem utf8Len_bounds : ∀ {l : List Nat} {k : Nat}, utf8Len l = some k → 1 ≤ k ∧ k ≤ l.length
  | [], _, h => by simp [utf8Len] at h
  | [b0], _, h => by
      simp only [utf8Len] at h
      split_ifs at h <;> simp_all <;> omega
  | [b0, b1], _, h => by
      simp only [utf8Len] at h
      split_ifs at h <;> simp_all <;> omega
  | [b0, b1, b2], _, h => by
      simp only [utf8Len] at h
      split_ifs at h <;> simp_all <;> omega
  | b0 :: b1 :: b2 :: b3 :: r, _, h => by
      simp only [utf8Len] at h
      split_ifs at h <;> try (simp_all [List.length_cons] <;> omega)

theorem utf8ErrLen_pos : ∀ (l : List Nat), 1 ≤ utf8ErrLen l
  | [] => by simp [utf8ErrLen]
  | [b0] => by simp only [utf8ErrLen]; split_ifs <;> omega
  | [b0, b1] => by simp only [utf8ErrLen]; split_ifs <;> omega
  | b0 :: b1 :: b2 :: r => by simp only [utf8ErrLen]; split_ifs <;> omega

theorem isValidUtf8Aux_congr :
    ∀ (f g : Nat) (l : List Nat), l.length ≤ f → l.length ≤ g →
      isValidUtf8Aux f l = isValidUtf8Aux g l := by
  intro f
  induction f with
  | zero =>
    intro g l hf _
    have hl : l = [] := List.eq_nil_of_length_eq_zero (Nat.le_zero.mp hf)
    subst hl
    cases g <;> simp [isValidUtf8Aux]
  | succ f ih =>
    intro g l hf hg
    match l with
    | [] => cases g <;> simp [isValidUtf8Aux]
    | b0 :: rest =>
      match g with
      | 0 => simp at hg
      | g + 1 =>
        simp only [isValidUtf8Aux]
        cases hu : utf8Len (b0 :: rest) with
        | none => rfl
        | some k =>
          have hb := utf8Len_bounds hu
          simp only [List.length_cons] at hf hg hb
          apply ih
          · simp only [List.length_drop, List.length_cons]; omega
          · simp only [List.length_drop, List.length_cons]; omega

theorem isValidUtf8_step {l : List Nat} {k : Nat} (h : utf8Len l = some k) :
    isValidUtf8 l = isValidUtf8 (l.drop k) := by
  match l with
  | [] => simp [utf8Len] at h
  | b0 :: rest =>
    have hb := utf8Len_bounds h
    unfold isValidUtf8
    conv_lhs => rw [List.length_cons]
    rw [isValidUtf8Aux, h]
    apply isValidUtf8Aux_congr
    · simp only [List.length_drop, List.length_cons] at *; omega
    · exact Nat.le_refl _

theorem isValidUtf8_cons_none {b0 : Nat} {rest : List Nat}
    (h : utf8Len (b0 :: rest) = none) : isValidUtf8 (b0 :: rest) = false := by
  unfold isValidUtf8
  rw [List.length_cons, isValidUtf8Aux, h]

theorem utf8LossyAux_congr :
    ∀ (f g : Nat) (l : List Nat), l.length ≤ f → l.length ≤ g →
      utf8LossyAux f l = utf8LossyAux g l := by
  intro f
  induction f with
  | zero =>
    intro g l hf _
    have hl : l = [] := List.eq_nil_of_length_eq_zero (Nat.le_zero.mp hf)
    subst hl
    cases g <;> simp [utf8LossyAux]
  | succ f ih =>
    intro g l hf hg
    match l with
    | [] => cases g <;> simp [utf8LossyAux]
    | b0 :: rest =>
      match g with
      | 0 => simp at hg
      | g + 1 =>
        simp only [utf8LossyAux]
        cases hu : utf8Len (b0 :: rest) with
        | none =>
          have he := utf8ErrLen_pos (b0 :: rest)
          simp only [List.length_cons] at hf hg
          have heq := ih g ((b0 :: rest).drop (utf8ErrLen (b0 :: rest)))
            (by simp only [List.length_drop, List.length_cons]; omega)
            (by simp only [List.length_drop, List.length_cons]; omega)
          simp [heq]
        | some k =>
          have hb := utf8Len_bounds hu
          simp only [List.length_cons] at hf hg hb
          have heq := ih g ((b0 :: rest).drop k)
            (by simp only [List.length_drop, List.length_cons]; omega)
            (by simp only [List.length_drop, List.length_cons]; omega)
          simp [heq]

theorem utf8Lossy_step {l : List Nat} {k : Nat} (h : utf8Len l = some k) :
    utf8LossyBytes l = l.take k ++ utf8LossyBytes (l.drop k) := by
  match l with
  | [] => simp [utf8Len] at h
  | b0 :: rest =>
    have hb := utf8Len_bounds h
    unfold utf8LossyBytes
    conv_lhs => rw [List.length_cons]
    rw [utf8LossyAux, h]
    have heq := utf8LossyAux_congr rest.length ((b0 :: rest).drop k).length ((b0 :: rest).drop k)
      (by simp only [List.length_drop, List.length_cons] at *; omega)
      (Nat.le_refl _)
    simp [heq]

theorem utf8Lossy_err {b0 : Nat} {rest : List Nat}
    (h : utf8Len (b0 :: rest) = none) :
    utf8LossyBytes (b0 :: rest) =
      0xEF :: 0xBF :: 0xBD :: utf8LossyBytes ((b0 :: rest).drop (utf8ErrLen (b0 :: rest))) := by
  have he := utf8ErrLen_pos (b0 :: rest)
  unfold utf8LossyBytes
  conv_lhs => rw [List.length_cons]
  rw [utf8LossyAux, h]
  have heq := utf8LossyAux_congr rest.length
    ((b0 :: rest).drop (utf8ErrLen (b0 :: rest))).length
    ((b0 :: rest).drop (utf8ErrLen (b0 :: rest)))
    (by simp only [List.length_drop, List.length_cons] at *; omega)
    (Nat.le_refl _)
  simp [heq]

theorem utf8Lossy_of_valid : ∀ (l : List Nat), isValidUtf8 l = true → utf8LossyBytes l = l := by
  have main : ∀ (n : Nat) (l : List Nat), l.length ≤ n →
      isValidUtf8 l = true → utf8LossyBytes l = l := by
    intro n
    induction n with
    | zero =>
      intro l hl _
      have : l = [] := List.eq_nil_of_length_eq_zero (Nat.le_zero.mp hl)
      subst this
      rfl
    | succ n ih =>
      intro l hl hv
      match l with
      | [] => rfl
      | b0 :: rest =>
        cases hu : utf8Len (b0 :: rest) with
        | none => rw [isValidUtf8_cons_none hu] at hv; exact absurd hv (by simp)
        | some k =>
          have hb := utf8Len_bounds hu
          rw [isValidUtf8_step hu] at hv
          rw [utf8Lossy_step hu]
          rw [ih ((b0 :: rest).drop k)
            (by simp only [List.length_drop, List.length_cons] at *; omega) hv]
          exact List.take_append_drop k (b0 :: rest)
  intro l
  exact main l.length l (Nat.le_refl _)

theorem utf8Len_take_append :
    ∀ {l : List Nat} {k : Nat}, utf8Len l = some k →
      ∀ (m : List Nat), utf8Len (l.take k ++ m) = some k
  | [], _, h => by simp [utf8Len] at h
  | [b0], k, h => by
      intro m
      simp only [utf8Len] at h
      split_ifs at h <;>
        first
        | exact Option.noConfusion h
        | (injection h with h; subst h; simp_all [utf8Len];
           try (split_ifs <;> first | rfl | omega))
  | [b0, b1], k, h => by
      intro m
      simp only [utf8Len] at h
      split_ifs at h <;>
        first
        | exact Option.noConfusion h
        | (injection h with h; subst h; simp_all [utf8Len];
           try (split_ifs <;> first | rfl | omega))
  | [b0, b1, b2], k, h => by
      intro m
      simp only [utf8Len] at h
      split_ifs at h <;>
        first
        | exact Option.noConfusion h
        | (injection h with h; subst h; simp_all [utf8Len];
           try (split_ifs <;> first | rfl | omega))
  | b0 :: b1 :: b2 :: b3 :: r, k, h => by
      intro m
      simp only [utf8Len] at h
      split_ifs at h <;>
        first
        | exact Option.noConfusion h
        | (injection h with h; subst h; simp_all [utf8Len];
           try (split_ifs <;> first | rfl | omega))

theorem isValidUtf8_append_chunk {l : List Nat} {k : Nat} (h : utf8Len l = some k)
    (m : List Nat) : isValidUtf8 (l.take k ++ m) = isValidUtf8 m := by
  have h2 := utf8Len_take_append h m
  rw [isValidUtf8_step h2]
  have hb := utf8Len_bounds h
  have hlen : (l.take k).length = k := by
    simp only [List.length_take]
    omega
  have hdrop : ∀ (c : List Nat), c.length = k → (c ++ m).drop k = m := by
    intro c hc
    rw [← hc]
    exact List.drop_left _ _
  rw [hdrop (l.take k) hlen]

theorem utf8Len_replacement (m : List Nat) :
    utf8Len (0xEF :: 0xBF :: 0xBD :: m) = some 3 := rfl

theorem isValidUtf8_lossy : ∀ (l : List Nat), isValidUtf8 (utf8LossyBytes l) = true := by
  have main : ∀ (n : Nat) (l : List Nat), l.length ≤ n →
      isValidUtf8 (utf8LossyBytes l) = true := by
    intro n
    induction n with
    | zero =>
      intro l hl
      have : l = [] := List.eq_nil_of_length_eq_zero (Nat.le_zero.mp hl)
      subst this
      rfl
    | succ n ih =>
      intro l hl
      match l with
      | [] => rfl
      | b0 :: rest =>
        cases hu : utf8Len (b0 :: rest) with
        | some k =>
          have hb := utf8Len_bounds hu
          rw [utf8Lossy_step hu, isValidUtf8_append_chunk hu]
          exact ih ((b0 :: rest).drop k)
            (by simp only [List.length_drop, List.length_cons] at *; omega)
        | none =>
          have he := utf8ErrLen_pos (b0 :: rest)
          rw [utf8Lossy_err hu]
          rw [isValidUtf8_step (utf8Len_replacement _)]
          simp only [List.drop_succ_cons, List.drop_zero]
          exact ih ((b0 :: rest).drop (utf8ErrLen (b0 :: rest)))
            (by simp only [List.length_drop, List.length_cons] at *; omega)
  intro l
  exact main l.length l (Nat.le_refl _)

/-! ## Null-terminated prefix lemmas -/

theorem null_terminated_bytes_eq_takeWhile :
    ∀ (bytes : List Nat),
      LogBV.null_terminated_bytes bytes = bytes.takeWhile (fun b => b != 0) := by
  intro bytes
  induction bytes with
  | nil => rfl
  | cons b t ih =>
    by_cases hb : b = 0
    · subst hb
      simp [LogBV.null_terminated_bytes, position, List.takeWhile_cons]
    · have hb' : (b == 0) = false := by simp [hb]
      have hb'' : (b != 0) = true := by simp [hb]
      unfold LogBV.null_terminated_bytes at ih ⊢
      rw [List.takeWhile_cons]
      simp only [position, hb', Bool.false_eq_true, if_false, hb'', if_true]
      cases hp : position (fun x => x == 0) t with
      | none =>
        simp only [hp] at ih
        simp only [hp, Option.map_none']
        rw [← ih]
      | some i =>
        simp only [hp] at ih
        simp only [hp, Option.map_some', List.take_succ_cons]
        rw [ih]

/-! ## Concrete example data -/

/-- The 22-byte input of the test_entry test in src/tests/entry.rs. -/
def entryTestBytes : List Nat :=
  [0, 0, 7, 1, 2, 42,
   77, 121, 32, 70, 105, 101, 108, 100, 32, 78, 97, 109, 101, 0, 0, 0]

/-- UTF-8 bytes of the text My Field Name. -/
def myFieldNameBytes : List Nat :=
  [77, 121, 32, 70, 105, 101, 108, 100, 32, 78, 97, 109, 101]

/-- A 32-byte name array holding My Field Name followed by zero padding. -/
def myFieldName32 : List Nat := myFieldNameBytes ++ List.replicate 19 0

/-! ## Claim C1 -/

/-- Field-by-field agreement of the zero-copy and the owned entry-header
views built from the same array, together with the decoded values the
fields must carry. -/
def entryViewsAgree (a : List Nat) : Prop :=
  (Entry.EntryHeaderRef.from_array a).index = (Entry.EntryHeaderOwned.from_array a).index
  ∧ (Entry.EntryHeaderRef.from_array a).index =
      a.getD 0 0 * 16777216 + a.getD 1 0 * 65536 + a.getD 2 0 * 256 + a.getD 3 0
  ∧ (Entry.EntryHeaderRef.from_array a).kind = (Entry.EntryHeaderOwned.from_array a).kind
  ∧ (Entry.EntryHeaderRef.from_array a).kind = Entry.Kind.from_byte (a.getD 4 0)
  ∧ (Entry.EntryHeaderRef.from_array a).name = (Entry.EntryHeaderOwned.from_array a).name
  ∧ (Entry.EntryHeaderRef.from_array a).name =
      ((a.drop 6).take 16).takeWhile (fun b => b != 0)

/-- C1: for every 22-byte input array, EntryHeaderRef::from_array and
EntryHeaderOwned::from_array decode field-by-field identical values: the
same big-endian u32 index, the same kind (some variant for bytes 0, 1, 2,
none otherwise) and the same name (the byte prefix up to the first zero
byte). -/
theorem claim_C1 (a : List Nat) (h : a.length = 22) : entryViewsAgree a := by
  obtain ⟨a0, a1, a2, a3, r, rfl⟩ :
      ∃ a0 a1 a2 a3 r, a = a0 :: a1 :: a2 :: a3 :: r := by
    cases a with
    | nil => simp at h
    | cons a0 t0 =>
      cases t0 with
      | nil => simp at h
      | cons a1 t1 =>
        cases t1 with
        | nil => simp at h
        | cons a2 t2 =>
          cases t2 with
          | nil => simp at h
          | cons a3 r => exact ⟨a0, a1, a2, a3, r, rfl⟩
  refine ⟨rfl, ?_, rfl, ?_, rfl, ?_⟩
  · simp [Entry.EntryHeaderRef.from_array, Entry.EntryHeaderRef.index, be32, List.getD]
    ring
  · unfold Entry.EntryHeaderRef.kind Entry.Kind.from_byte Entry.EntryHeaderRef._kind
      Entry.EntryHeaderRef.from_array
    rfl
  · have hnt : Entry.EntryHeaderRef.name (Entry.EntryHeaderRef.from_array
        (a0 :: a1 :: a2 :: a3 :: r)) =
        LogBV.null_terminated_bytes (((a0 :: a1 :: a2 :: a3 :: r).drop 6).take 16) := by
      unfold Entry.EntryHeaderRef.name Entry.EntryHeaderRef._name
        Entry.EntryHeaderRef.from_array LogBV.null_terminated_bytes
      dsimp only
    rw [hnt, null_terminated_bytes_eq_takeWhile]

/-- Witness: C1 applied to the 22-byte input of the test_entry test. -/
theorem claim_C1_witness : entryTestBytes.length = 22 ∧ entryViewsAgree entryTestBytes :=
  ⟨by decide, claim_C1 entryTestBytes (by decide)⟩

/-! ## Claim C2 -/

/-- C2 (code bug): on buffers shorter than the 42-byte record width the
generated HeaderStart::split_slice does return the explicit failure value
none, but the hand-written Header::split_slice in log_byteview.rs unwraps
it and panics (the Except error case) instead of returning a failure to
the caller. -/
theorem claim_C2 :
    LogBV.HeaderStart.split_slice (List.replicate 41 0) = none
  ∧ LogBV.Header.split_slice (List.replicate 41 0) = Except.error ()
  ∧ LogBV.Header.split_slice [] = Except.error () :=
  ⟨rfl, rfl, rfl⟩

/-! ## Claims C5 and C9: timestamps -/

theorem from_unix_epoch_eq (v : Nat) (hv : v < 4294967296) :
    LogBV.from_unix_epoch v = if v = 0 then none else some (v : Int) := by
  unfold LogBV.from_unix_epoch chronoFromTimestamp chronoMinTimestamp chronoMaxTimestamp
  by_cases h0 : v = 0
  · simp [h0]
  · simp only [h0, beq_iff_eq, if_false, if_neg h0]
    rw [if_pos]
    constructor <;> omega

theorem get_utc_eq (v : Nat) (hv : v < 4294967296) :
    LogZC.Timestamp.get_utc ⟨v⟩ = if v = 0 then none else some (v : Int) := by
  unfold LogZC.Timestamp.get_utc chronoFromTimestamp chronoMinTimestamp chronoMaxTimestamp
  by_cases h0 : v = 0
  · simp [h0]
  · simp only [h0, beq_iff_eq, if_false, if_neg h0]
    rw [if_pos]
    constructor <;> omega

/-- C5: a raw epoch value of 0 decodes to the absent value under the UTC
and the local projection in both implementations; the value 1 decodes to
the instant one second after the epoch origin; the zero-sentinel check
precedes the projection, so a present decoded instant is never the result
of a zero raw value and always equals the (positive) raw value itself. -/
theorem claim_C5 (v : Nat) (hv : v < 4294967296) :
    (LogBV.from_unix_epoch v = none ↔ v = 0)
  ∧ ((LogBV.from_unix_epoch v).map withTimezoneLocal = none ↔ v = 0)
  ∧ (LogZC.Timestamp.get_utc ⟨v⟩ = none ↔ v = 0)
  ∧ (LogZC.Timestamp.get_local ⟨v⟩ = none ↔ v = 0)
  ∧ (∀ t, LogBV.from_unix_epoch v = some t → 1 ≤ t ∧ t = (v : Int))
  ∧ LogBV.from_unix_epoch 0 = none
  ∧ LogZC.Timestamp.get_utc ⟨0⟩ = none
  ∧ LogZC.Timestamp.get_local ⟨0⟩ = none
  ∧ LogBV.from_unix_epoch 1 = some 1
  ∧ LogZC.Timestamp.get_utc ⟨1⟩ = some 1 := by
  rw [LogZC.Timestamp.get_local, from_unix_epoch_eq v hv, get_utc_eq v hv]
  refine ⟨?_, ?_, ?_, ?_, ?_, rfl, rfl, rfl, rfl, rfl⟩ <;> by_cases h0 : v = 0 <;>
    simp [h0] <;> omega

/-- Witness: C5 applied at the raw value 1. -/
theorem claim_C5_witness :
    (1 : Nat) < 4294967296
  ∧ ((LogBV.from_unix_epoch 1 = none ↔ (1 : Nat) = 0)
  ∧ ((LogBV.from_unix_epoch 1).map withTimezoneLocal = none ↔ (1 : Nat) = 0)
  ∧ (LogZC.Timestamp.get_utc ⟨1⟩ = none ↔ (1 : Nat) = 0)
  ∧ (LogZC.Timestamp.get_local ⟨1⟩ = none ↔ (1 : Nat) = 0)
  ∧ (∀ t, LogBV.from_unix_epoch 1 = some t → 1 ≤ t ∧ t = ((1 : Nat) : Int))
  ∧ LogBV.from_unix_epoch 0 = none
  ∧ LogZC.Timestamp.get_utc ⟨0⟩ = none
  ∧ LogZC.Timestamp.get_local ⟨0⟩ = none
  ∧ LogBV.from_unix_epoch 1 = some 1
  ∧ LogZC.Timestamp.get_utc ⟨1⟩ = some 1) :=
  ⟨by decide, claim_C5 1 (by decide)⟩

/-- C9: every nonzero raw u32 epoch value lies inside chrono's
representable calendar range, so both timestamp decoders always succeed
on it; decoding is none exactly on the zero sentinel. -/
theorem claim_C9 (v : Nat) (h1 : 0 < v) (h2 : v < 4294967296) :
    LogBV.from_unix_epoch v = some (v : Int)
  ∧ LogZC.Timestamp.get_utc ⟨v⟩ = some (v : Int)
  ∧ LogZC.Timestamp.get_local ⟨v⟩ = some (withTimezoneLocal (v : Int)) := by
  have h0 : ¬(v = 0) := by omega
  rw [LogZC.Timestamp.get_local, from_unix_epoch_eq v h2, get_utc_eq v h2]
  simp [h0]

/-- Witness: C9 applied at the raw value 1. -/
theorem claim_C9_witness :
    ((0 : Nat) < 1 ∧ (1 : Nat) < 4294967296)
  ∧ (LogBV.from_unix_epoch 1 = some ((1 : Nat) : Int)
  ∧ LogZC.Timestamp.get_utc ⟨1⟩ = some ((1 : Nat) : Int)
  ∧ LogZC.Timestamp.get_local ⟨1⟩ = some (withTimezoneLocal ((1 : Nat) : Int))) :=
  ⟨⟨by decide, by decide⟩, claim_C9 1 (by decide) (by decide)⟩

/-! ## Claim C8 -/

/-- C8: for every data_info byte, length is the low nibble (all sixteen
values accepted as-is) and kind maps the high nibble through the closed
five-variant mapping, failing with the offending nibble value for every
high nibble of 5 or more, in both implementations. -/
theorem claim_C8 (b : Nat) (hb : b < 256) :
    LogBV.DataInfo.length ⟨b⟩ = b % 16
  ∧ LogZC.DataInfo.length ⟨b⟩ = b % 16
  ∧ b % 16 < 16
  ∧ (b >>> 4 = 0 → LogBV.DataInfo.kind ⟨b⟩ = Except.ok LogBV.DataKind.SignedInteger
      ∧ LogZC.DataInfo.kind ⟨b⟩ = Except.ok LogZC.DataKind.SignedInteger)
  ∧ (b >>> 4 = 1 → LogBV.DataInfo.kind ⟨b⟩ = Except.ok LogBV.DataKind.UnsignedInteger
      ∧ LogZC.DataInfo.kind ⟨b⟩ = Except.ok LogZC.DataKind.UnsignedInteger)
  ∧ (b >>> 4 = 2 → LogBV.DataInfo.kind ⟨b⟩ = Except.ok LogBV.DataKind.Float
      ∧ LogZC.DataInfo.kind ⟨b⟩ = Except.ok LogZC.DataKind.Float)
  ∧ (b >>> 4 = 3 → LogBV.DataInfo.kind ⟨b⟩ = Except.ok LogBV.DataKind.String
      ∧ LogZC.DataInfo.kind ⟨b⟩ = Except.ok LogZC.DataKind.String)
  ∧ (b >>> 4 = 4 → LogBV.DataInfo.kind ⟨b⟩ = Except.ok LogBV.DataKind.Bool
      ∧ LogZC.DataInfo.kind ⟨b⟩ = Except.ok LogZC.DataKind.Bool)
  ∧ (5 ≤ b >>> 4 → LogBV.DataInfo.kind ⟨b⟩ = Except.error (b >>> 4)
      ∧ LogZC.DataInfo.kind ⟨b⟩ = Except.error (b >>> 4)) := by
  have hand : b &&& 15 = b % 16 := by
    have h := Nat.and_pow_two_sub_one_eq_mod b 4
    norm_num at h
    exact h
  refine ⟨hand, hand, by omega, ?_, ?_, ?_, ?_, ?_, ?_⟩
  · intro h
    constructor <;> simp [LogBV.DataInfo.kind, LogZC.DataInfo.kind, h]
  · intro h
    constructor <;> simp [LogBV.DataInfo.kind, LogZC.DataInfo.kind, h]
  · intro h
    constructor <;> simp [LogBV.DataInfo.kind, LogZC.DataInfo.kind, h]
  · intro h
    constructor <;> simp [LogBV.DataInfo.kind, LogZC.DataInfo.kind, h]
  · intro h
    constructor <;> simp [LogBV.DataInfo.kind, LogZC.DataInfo.kind, h]
  · intro h5
    have hm : b >>> 4 = (b >>> 4 - 5) + 5 := by omega
    constructor
    · show LogBV.DataInfo.kind ⟨b⟩ = Except.error (b >>> 4)
      unfold LogBV.DataInfo.kind
      dsimp only
      rw [hm]
      rfl
    · show LogZC.DataInfo.kind ⟨b⟩ = Except.error (b >>> 4)
      unfold LogZC.DataInfo.kind
      dsimp only
      rw [hm]
      rfl

/-- Witness: C8 applied at the byte 0x75 (high nibble 7, low nibble 5). -/
theorem claim_C8_witness :
    (117 : Nat) < 256
  ∧ (LogBV.DataInfo.length ⟨117⟩ = 117 % 16
  ∧ LogZC.DataInfo.length ⟨117⟩ = 117 % 16
  ∧ (117 : Nat) % 16 < 16
  ∧ ((117 : Nat) >>> 4 = 0 → LogBV.DataInfo.kind ⟨117⟩ = Except.ok LogBV.DataKind.SignedInteger
      ∧ LogZC.DataInfo.kind ⟨117⟩ = Except.ok LogZC.DataKind.SignedInteger)
  ∧ ((117 : Nat) >>> 4 = 1 → LogBV.DataInfo.kind ⟨117⟩ = Except.ok LogBV.DataKind.UnsignedInteger
      ∧ LogZC.DataInfo.kind ⟨117⟩ = Except.ok LogZC.DataKind.UnsignedInteger)
  ∧ ((117 : Nat) >>> 4 = 2 → LogBV.DataInfo.kind ⟨117⟩ = Except.ok LogBV.DataKind.Float
      ∧ LogZC.DataInfo.kind ⟨117⟩ = Except.ok LogZC.DataKind.Float)
  ∧ ((117 : Nat) >>> 4 = 3 → LogBV.DataInfo.kind ⟨117⟩ = Except.ok LogBV.DataKind.String
      ∧ LogZC.DataInfo.kind ⟨117⟩ = Except.ok LogZC.DataKind.String)
  ∧ ((117 : Nat) >>> 4 = 4 → LogBV.DataInfo.kind ⟨117⟩ = Except.ok LogBV.DataKind.Bool
      ∧ LogZC.DataInfo.kind ⟨117⟩ = Except.ok LogZC.DataKind.Bool)
  ∧ (5 ≤ (117 : Nat) >>> 4 → LogBV.DataInfo.kind ⟨117⟩ = Except.error (117 >>> 4)
      ∧ LogZC.DataInfo.kind ⟨117⟩ = Except.error (117 >>> 4))) :=
  ⟨by decide, claim_C8 117 (by decide)⟩

/-! ## Claim C6 -/

/-- Name-extraction behavior: the logical name is the prefix up to the
first zero byte (the whole array when none is present); strict extraction
succeeds exactly on valid UTF-8 prefixes and returns them unchanged;
lossy extraction always yields a valid string, agrees on the My Field
Name example, and substitutes the replacement character on invalid
input. -/
def nameExtractionSpec (bytes : List Nat) : Prop :=
    LogBV.null_terminated_bytes bytes = bytes.takeWhile (fun b => b != 0)
  ∧ ((∀ b ∈ bytes, b ≠ 0) → LogBV.null_terminated_bytes bytes = bytes)
  ∧ (LogBV.null_terminated_string bytes = some (LogBV.null_terminated_bytes bytes)
      ↔ isValidUtf8 (LogBV.null_terminated_bytes bytes) = true)
  ∧ (LogBV.null_terminated_string bytes = none
      ↔ isValidUtf8 (LogBV.null_terminated_bytes bytes) = false)
  ∧ isValidUtf8 (LogBV.null_terminated_string_lossy bytes) = true
  ∧ LogBV.null_terminated_string myFieldName32 = some myFieldNameBytes
  ∧ LogBV.null_terminated_string_lossy myFieldName32 = myFieldNameBytes
  ∧ LogBV.null_terminated_string [255] = none
  ∧ LogBV.null_terminated_string_lossy [255] = [239, 191, 189]

/-- C6: for every name byte array the extracted logical name is the
prefix up to the first zero byte (or the whole array without one); strict
extraction returns exactly that prefix when it is valid UTF-8 and fails
otherwise; lossy extraction always produces a (valid) string,
substituting replacement characters; the My Field Name example extracts
identically under both modes. -/
theorem claim_C6 (bytes : List Nat) : nameExtractionSpec bytes := by
  refine ⟨null_terminated_bytes_eq_takeWhile bytes, ?_, ?_, ?_, ?_, by decide, by decide,
    by decide, by decide⟩
  · intro hz
    rw [null_terminated_bytes_eq_takeWhile bytes]
    apply List.takeWhile_eq_self_iff.mpr
    intro a ha
    simpa using hz a ha
  · unfold LogBV.null_terminated_string stringFromUtf8
    by_cases hv : isValidUtf8 (LogBV.null_terminated_bytes bytes) = true <;> simp [hv]
  · unfold LogBV.null_terminated_string stringFromUtf8
    by_cases hv : isValidUtf8 (LogBV.null_terminated_bytes bytes) = true <;> simp [hv]
  · exact isValidUtf8_lossy _

/-- Witness: C6 applied to the 32-byte My Field Name array. -/
theorem claim_C6_witness : nameExtractionSpec myFieldName32 :=
  claim_C6 myFieldName32

/-! ## Claim C10 -/

/-- C10: whenever strict null-terminated extraction succeeds with a
string, lossy extraction (the identical helper of log_zerocopy.rs)
returns exactly that string. -/
theorem claim_C10 (bytes s : List Nat)
    (h : LogBV.null_terminated_string bytes = some s) :
    LogZC.null_terminated_string_lossy bytes = s := by
  unfold LogZC.null_terminated_string_lossy
  have hzb : LogZC.null_terminated_bytes bytes = LogBV.null_terminated_bytes bytes := rfl
  rw [hzb]
  unfold LogBV.null_terminated_string stringFromUtf8 at h
  by_cases hv : isValidUtf8 (LogBV.null_terminated_bytes bytes) = true
  · rw [if_pos hv] at h
    injection h with h
    rw [← h]
    exact utf8Lossy_of_valid _ hv
  · rw [if_neg hv] at h
    exact Option.noConfusion h

/-- Witness: C10 applied to the 32-byte My Field Name array. -/
theorem claim_C10_witness :
    LogBV.null_terminated_string myFieldName32 = some myFieldNameBytes
  ∧ LogZC.null_terminated_string_lossy myFieldName32 = myFieldNameBytes :=
  ⟨by decide, claim_C10 myFieldName32 myFieldNameBytes (by decide)⟩

/-! ## Slice-arithmetic helpers -/

theorem getD_take (l : List Nat) (n i : Nat) (h : i < n) :
    (l.take n).getD i 0 = l.getD i 0 := by
  simp [List.getD_eq_getElem?_getD, List.getElem?_take, h]

theorem getD_append_left (l₁ l₂ : List Nat) (i : Nat) (h : i < l₁.length) :
    (l₁ ++ l₂).getD i 0 = l₁.getD i 0 := by
  simp [List.getD_eq_getElem?_getD, List.getElem?_append, h]

/-! ## Claim C4 -/

/-- Everything C4 requires of the parsed byteview header view when the
log-type byte is 7: the parse succeeds, the discriminant accessor fails
carrying the raw byte 7, and every other accessor still returns the value
decoded from its own byte range. -/
def invalidLogTypeSpec (bs : List Nat) : Prop :=
  ∃ hs rest, LogBV.HeaderStart.split_slice bs = some (hs, rest)
    ∧ LogBV.HeaderStart.log_type hs = Except.error 7
    ∧ LogBV.HeaderStart._file_name hs = bs.take 32
    ∧ LogBV.HeaderStart.file_name hs = LogBV.null_terminated_string (bs.take 32)
    ∧ LogBV.HeaderStart._earliest_date_epoch hs = be32 ((bs.drop 32).take 4)
    ∧ LogBV.HeaderStart.earliest_date_utc hs =
        LogBV.from_unix_epoch (be32 ((bs.drop 32).take 4))
    ∧ LogBV.HeaderStart._latest_date_epoch hs = be32 ((bs.drop 36).take 4)
    ∧ LogBV.HeaderStart.latest_date_utc hs =
        LogBV.from_unix_epoch (be32 ((bs.drop 36).take 4))
    ∧ LogBV.HeaderStart.num_fields hs = bs.getD 41 0
    ∧ rest = bs.drop 42

/-- C4: a buffer of at least 42 bytes whose type byte (offset 40) is 7
still parses into a header view; discriminant decoding on that view fails
carrying the raw byte 7, while the file name, both timestamps and
num_fields accessors independently return the values decoded from their
own byte ranges. -/
theorem claim_C4 (bs : List Nat) (h42 : 42 ≤ bs.length) (h7 : bs.getD 40 0 = 7) :
    invalidLogTypeSpec bs := by
  refine ⟨⟨bs.take 42⟩, bs.drop 42, ?_, ?_, ?_, ?_, ?_, ?_, ?_, ?_, ?_, rfl⟩
  · unfold LogBV.HeaderStart.split_slice
    rw [if_neg (by omega)]
  · unfold LogBV.HeaderStart.log_type LogBV.HeaderStart._log_type
    have : (bs.take 42).getD 40 0 = 7 := by rw [getD_take bs 42 40 (by omega)]; exact h7
    rw [this]
  · unfold LogBV.HeaderStart._file_name
    simp [List.take_take]
  · unfold LogBV.HeaderStart.file_name LogBV.HeaderStart._file_name
    simp [List.take_take]
  · unfold LogBV.HeaderStart._earliest_date_epoch
    simp [List.drop_take, List.take_take]
  · unfold LogBV.HeaderStart.earliest_date_utc LogBV.HeaderStart._earliest_date_epoch
    simp [List.drop_take, List.take_take]
  · unfold LogBV.HeaderStart._latest_date_epoch
    simp [List.drop_take, List.take_take]
  · unfold LogBV.HeaderStart.latest_date_utc LogBV.HeaderStart._latest_date_epoch
    simp [List.drop_take, List.take_take]
  · unfold LogBV.HeaderStart.num_fields
    rw [getD_take bs 42 41 (by omega)]

/-- Witness: C4 applied to a concrete 42-byte buffer with type byte 7. -/
theorem claim_C4_witness :
    (42 ≤ (List.replicate 40 0 ++ [7, 0] : List Nat).length
      ∧ (List.replicate 40 0 ++ [7, 0] : List Nat).getD 40 0 = 7)
  ∧ invalidLogTypeSpec (List.replicate 40 0 ++ [7, 0]) :=
  ⟨⟨by decide, by decide⟩, claim_C4 _ (by decide) (by decide)⟩

/-! ## Repeated-record loop lemmas -/

theorem fieldsLoop_ok :
    ∀ (n : Nat) (bs : List Nat), n * 34 ≤ bs.length →
      ∃ fds, LogBV.fieldsLoop n bs = some (fds, bs.drop (n * 34)) ∧ fds.length = n := by
  intro n
  induction n with
  | zero =>
    intro bs _
    exact ⟨[], by simp [LogBV.fieldsLoop], rfl⟩
  | succ n ih =>
    intro bs h
    have h34 : ¬(bs.length < 34) := by omega
    obtain ⟨fds, hl, hn⟩ := ih (bs.drop 34) (by simp only [List.length_drop]; omega)
    refine ⟨⟨bs.take 34⟩ :: fds, ?_, by simp [hn]⟩
    unfold LogBV.fieldsLoop LogBV.FieldDefinition.split_slice
    rw [if_neg h34]
    simp only [hl, List.drop_drop]
    have harith : 34 + n * 34 = (n + 1) * 34 := by ring
    rw [harith]

theorem fieldsLoop_none :
    ∀ (n : Nat) (bs : List Nat), bs.length < n * 34 → LogBV.fieldsLoop n bs = none := by
  intro n
  induction n with
  | zero => intro bs h; omega
  | succ n ih =>
    intro bs h
    by_cases h34 : bs.length < 34
    · unfold LogBV.fieldsLoop LogBV.FieldDefinition.split_slice
      rw [if_pos h34]
    · unfold LogBV.fieldsLoop LogBV.FieldDefinition.split_slice
      rw [if_neg h34]
      have := ih (bs.drop 34) (by simp only [List.length_drop]; omega)
      simp only [this]

theorem fields_split_ok :
    ∀ (n : Nat) (bs : List Nat), n * 34 ≤ bs.length →
      ∃ fds, LogZC.fields_split n bs = Except.ok (fds, bs.drop (n * 34)) ∧ fds.length = n := by
  intro n
  induction n with
  | zero =>
    intro bs _
    exact ⟨[], by simp [LogZC.fields_split], rfl⟩
  | succ n ih =>
    intro bs h
    have h34 : ¬(bs.length < 34) := by omega
    obtain ⟨fds, hl, hn⟩ := ih (bs.drop 34) (by simp only [List.length_drop]; omega)
    refine ⟨⟨bs.take 32, ⟨bs.getD 32 0⟩, bs.getD 33 0⟩ :: fds, ?_, by simp [hn]⟩
    unfold LogZC.fields_split LogZC.FieldDefinition.try_ref_split
    rw [if_neg h34]
    simp only [hl, List.drop_drop]
    have harith : 34 + n * 34 = (n + 1) * 34 := by ring
    rw [harith]

theorem fields_split_err :
    ∀ (n : Nat) (bs : List Nat), 1 ≤ n → (n - 1) * 34 ≤ bs.length → bs.length < n * 34 →
      LogZC.fields_split n bs =
        Except.error (LogZC.CastErr.size (bs.drop ((n - 1) * 34))) := by
  intro n
  induction n with
  | zero => intro bs h1 _ _; omega
  | succ n ih =>
    intro bs _ hlo hhi
    match n with
    | 0 =>
      have h34 : bs.length < 34 := by omega
      unfold LogZC.fields_split LogZC.FieldDefinition.try_ref_split
      rw [if_pos h34]
      simp
    | m + 1 =>
      have h34 : ¬(bs.length < 34) := by omega
      unfold LogZC.fields_split LogZC.FieldDefinition.try_ref_split
      rw [if_neg h34]
      have hrec := ih (bs.drop 34) (by omega)
        (by simp only [List.length_drop]; omega)
        (by simp only [List.length_drop]; omega)
      simp only [hrec, List.drop_drop]
      have harith : 34 + (m + 1 - 1) * 34 = (m + 1 + 1 - 1) * 34 := by omega
      rw [harith]

/-! ## Claim C7 -/

/-- Offset accounting for the byteview full-header parse: it succeeds,
yields exactly n field definitions and returns the suffix after
42 + n * 34 bytes. -/
def parseAccountingBV (bs : List Nat) (n : Nat) : Prop :=
  ∃ hdr rest, LogBV.Header.split_slice bs = Except.ok (some (hdr, rest))
    ∧ hdr.fields.length = n
    ∧ rest = bs.drop (42 + n * 34)
    ∧ rest.length = bs.length - 42 - n * 34

/-- Offset accounting for the zerocopy full-header parse: it succeeds,
yields exactly n field definitions and returns the suffix after
42 + n * 34 bytes. -/
def parseAccountingZC (bs : List Nat) (n : Nat) : Prop :=
  ∃ hdr rest, LogZC.Header.try_ref_split bs = Except.ok (hdr, rest)
    ∧ hdr.fields.length = n
    ∧ rest = bs.drop (42 + n * 34)
    ∧ rest.length = bs.length - 42 - n * 34

/-- C7: a buffer whose header declares num_fields = n and which holds at
least n complete 34-byte field-definition records after the 42-byte
header parses fully, consuming exactly 42 + n * 34 bytes; the remainder
has length buffer length minus 42 minus n * 34 (for the zerocopy variant
the log-type byte must additionally be a valid discriminant, since its
derived parser validates it).  n = 0 succeeds with an empty field list
even with no trailing bytes. -/
theorem claim_C7 (bs : List Nat) (n : Nat) (hn : bs.getD 41 0 = n)
    (hlen : 42 + n * 34 ≤ bs.length) :
    parseAccountingBV bs n ∧ (bs.getD 40 0 ≤ 2 → parseAccountingZC bs n) := by
  constructor
  · have hs : LogBV.HeaderStart.split_slice bs = some (⟨bs.take 42⟩, bs.drop 42) := by
      unfold LogBV.HeaderStart.split_slice
      rw [if_neg (by omega)]
    have hnf : LogBV.HeaderStart.num_fields ⟨bs.take 42⟩ = n := by
      unfold LogBV.HeaderStart.num_fields
      rw [getD_take bs 42 41 (by omega)]
      exact hn
    obtain ⟨fds, hl, hcnt⟩ :=
      fieldsLoop_ok n (bs.drop 42) (by simp only [List.length_drop]; omega)
    refine ⟨⟨⟨bs.take 42⟩, fds⟩, bs.drop (42 + n * 34), ?_, hcnt, rfl, ?_⟩
    · unfold LogBV.Header.split_slice
      simp only [hs, hnf, hl, List.drop_drop]
    · simp only [List.length_drop]
      omega
  · intro hlt
    have hv : bs.getD 40 0 = 0 ∨ bs.getD 40 0 = 1 ∨ bs.getD 40 0 = 2 := by omega
    have hlt' : ∃ lt, LogZC.LogType.try_from_byte (bs.getD 40 0) = some lt := by
      rcases hv with h | h | h <;> rw [h] <;> exact ⟨_, rfl⟩
    obtain ⟨lt, hltb⟩ := hlt'
    obtain ⟨fds, hl, hcnt⟩ :=
      fields_split_ok n (bs.drop 42) (by simp only [List.length_drop]; omega)
    refine ⟨⟨⟨bs.take 32, ⟨be32 ((bs.drop 32).take 4)⟩, ⟨be32 ((bs.drop 36).take 4)⟩,
        lt, n⟩, fds⟩, bs.drop (42 + n * 34), ?_, hcnt, rfl, ?_⟩
    · unfold LogZC.Header.try_ref_split LogZC.HeaderStart.try_ref_split
      rw [if_neg (by omega)]
      simp only [hltb, hn, hl, List.drop_drop]
    · simp only [List.length_drop]
      omega

/-- Witness: C7 applied to a 42-byte buffer declaring zero fields, with
no trailing bytes at all. -/
theorem claim_C7_witness :
    ((List.replicate 40 0 ++ [0, 0] : List Nat).getD 41 0 = 0
      ∧ 42 + 0 * 34 ≤ (List.replicate 40 0 ++ [0, 0] : List Nat).length)
  ∧ (parseAccountingBV (List.replicate 40 0 ++ [0, 0]) 0
      ∧ ((List.replicate 40 0 ++ [0, 0] : List Nat).getD 40 0 ≤ 2 →
          parseAccountingZC (List.replicate 40 0 ++ [0, 0]) 0)) :=
  ⟨⟨by decide, by decide⟩, claim_C7 _ 0 (by decide) (by decide)⟩

/-! ## Claim C3 -/

/-- C3 counterexample input: a valid 42-byte header (file name empty,
epochs zero, log type 0) declaring num_fields = 1, followed by no
field-definition bytes at all. -/
def truncatedFieldsBuf : List Nat := List.replicate 40 0 ++ [0, 1]

/-- C3 counterexample: on a buffer with a valid header declaring one
field but containing zero field-definition records, the byteview
repeated-record parser does crash (panic, the Except error case) instead
of returning a failure, and the zerocopy parser's truncation error
carries the short remaining slice, not an iteration index. -/
theorem claim_C3_counterexample :
    LogBV.Header.split_slice truncatedFieldsBuf = Except.error ()
  ∧ LogZC.Header.try_ref_split truncatedFieldsBuf =
      Except.error (LogZC.CastErr.size []) :=
  ⟨rfl, rfl⟩

/-- C3 as amended: with a valid header declaring n fields but only the
bytes of n - 1 complete records after it, the zerocopy repeated-record
parser fails at iteration n - 1 with a truncation (size) error whose
payload is the short remaining suffix (no iteration index is attached),
and returns no partial list; the byteview Header::split_slice panics on
the same shape of input instead of returning an error. -/
theorem claim_C3 (n r : Nat) (bs : List Nat) (hn : 1 ≤ n)
    (hlen : bs.length = (n - 1) * 34 + r) (hr : r < 34) :
    LogZC.fields_split n bs =
      Except.error (LogZC.CastErr.size (bs.drop ((n - 1) * 34)))
  ∧ (bs.drop ((n - 1) * 34)).length = r
  ∧ (∀ hb : List Nat, hb.length = 42 → hb.getD 41 0 = n →
      LogBV.Header.split_slice (hb ++ bs) = Except.error ()) := by
  refine ⟨fields_split_err n bs hn (by omega) (by omega), ?_, ?_⟩
  · simp only [List.length_drop]
    omega
  · intro hb hb42 hbn
    have hs : LogBV.HeaderStart.split_slice (hb ++ bs) = some (⟨hb⟩, bs) := by
      unfold LogBV.HeaderStart.split_slice
      rw [if_neg (by simp only [List.length_append]; omega)]
      rw [List.take_left' hb42, List.drop_left' hb42]
    have hnf : LogBV.HeaderStart.num_fields ⟨hb⟩ = n := by
      unfold LogBV.HeaderStart.num_fields
      exact hbn
    have hloop : LogBV.fieldsLoop n bs = none := fieldsLoop_none n bs (by omega)
    unfold LogBV.Header.split_slice
    simp only [hs, hnf, hloop]

/-- Witness: C3 (amended) applied at n = 1 with an empty field-record
suffix, using the counterexample's header bytes. -/
theorem claim_C3_witness :
    (1 ≤ 1 ∧ ([] : List Nat).length = (1 - 1) * 34 + 0 ∧ 0 < 34)
  ∧ (LogZC.fields_split 1 [] =
      Except.error (LogZC.CastErr.size (([] : List Nat).drop ((1 - 1) * 34)))
  ∧ (([] : List Nat).drop ((1 - 1) * 34)).length = 0
  ∧ (∀ hb : List Nat, hb.length = 42 → hb.getD 41 0 = 1 →
      LogBV.Header.split_slice (hb ++ []) = Except.error ())) :=
  ⟨⟨by decide, by decide, by decide⟩, claim_C3 1 0 [] (by decide) (by decide) (by decide)⟩
